import Mathlib

/-!
Shallow embedding of the database lifecycle CLI in
`src/blueprint/cli/src/bin/db.rs` (a `cargo db` tool built on sqlx):
the operations `drop`, `create`, `migrate`, `seed`, `reset` and their
helpers `get_db_config`, `get_db_client`, `get_root_db_client`.

Conventions of the embedding:
* `Outcome` mirrors how a Rust `async fn ... -> Result<T, anyhow::Error>`
  can leave the function: `ok` (the `Ok` value), `err` (an `Err` produced
  by `?` with an `anyhow` `.context(...)` string), or `panic` (process
  abort via `.unwrap()` / `.expect(...)`, which bypasses the `Result`
  channel entirely).
* Collaborator behaviour (URL parsing, server connections, the migration
  directory, the seed file, per-statement success) is abstracted into an
  environment `Env` of oracles: one `Bool` per fallible collaborator call,
  a success oracle `applyOk` per migration version, and the discovered
  migration list / initial ledger contents as data.
* Machine integers: sqlx migration versions are `i64` and the applied
  counter is `i32`; the runs modelled here never approach either bound,
  so versions are `Int` and the counter is `Nat`.
-/

namespace GerustDb

/-- One sqlx migration as seen by `migrator.iter()`: only its `version`
(`i64`) decides the engine's control flow; whether its statements succeed
is abstracted into the `applyOk` oracle of `Env`, keyed by version. -/
structure Migration where
  version : Int
deriving DecidableEq, Repr

/-- Ordering of migrations by version, used by the migrator's sort. -/
def migLE (a b : Migration) : Prop := a.version ≤ b.version

instance : DecidableRel migLE := fun a b => Int.decLe a.version b.version

instance : IsTotal Migration migLE := ⟨fun a b => Int.le_total a.version b.version⟩

instance : IsTrans Migration migLE := ⟨fun _ _ _ h1 h2 => le_trans h1 h2⟩

instance : IsAntisymm Migration migLE := by
  refine ⟨fun a b h1 h2 => ?_⟩
  cases a; cases b
  simp only [migLE] at h1 h2
  simp only [Migration.mk.injEq]
  omega

/-- Modelled from the spec: `Migrator::new` (sqlx) resolves the migration
directory and yields the migrations "sorted ascending by version"
regardless of file-system discovery order; the sorting itself lives in the
sqlx dependency, not under `src/`. Embedded as an insertion sort by
version over the discovered list. -/
def sortMigrations (ms : List Migration) : List Migration :=
  List.insertionSort migLE ms

/-- An `anyhow` error as the core produces it: the `.context(...)` string
attached at the failing call site (or an `.expect`-style message for the
`anyhow!` constructors). -/
structure DbError where
  msg : String
deriving DecidableEq, Repr

/-- How a call to one of the five operations terminates: a success value,
a typed failure returned to the caller, or a process abort
(`unwrap`/`expect` panic) that never reaches the caller's `Result`. -/
inductive Outcome (α : Type) where
  | ok : α → Outcome α
  | err : DbError → Outcome α
  | panicked : String → Outcome α
deriving DecidableEq, Repr

/-- True when the call terminated through the `Result` channel
(`Ok` or `Err`), false when it panicked. -/
def Outcome.viaResult {α : Type} : Outcome α → Bool
  | .ok _ => true
  | .err _ => true
  | .panicked _ => false

/-- Environment of collaborator oracles for one invocation, abstracting
everything outside the core control flow of `db.rs`. -/
structure Env where
  /-- `Url::parse` + `ConnectOptions::from_url` both succeed in
  `get_db_config` (otherwise each `.expect("Invalid DATABASE_URL!")`
  panics). -/
  urlValid : Bool
  /-- `db_config.get_database()`: the database name resolved from the
  descriptor, `none` when absent. -/
  dbName : Option String
  /-- `Connection::connect_with(&root_db_config)` in `get_root_db_client`
  succeeds (otherwise its `.unwrap()` panics). -/
  rootConnectOk : Bool
  /-- Connecting to the target database succeeds: `db_config.connect()`
  in `migrate` (an `Err` there), `Connection::connect_with(&db_config)`
  in `get_db_client` (an `.unwrap()` panic there). -/
  targetConnectOk : Bool
  /-- The server accepts the `DROP DATABASE` statement. -/
  dropOk : Bool
  /-- The server accepts the `CREATE DATABASE` statement. -/
  createOk : Bool
  /-- `Migrator::new(...)` succeeds (migration directory readable and
  well formed). -/
  migratorOk : Bool
  /-- `connection.ensure_migrations_table()` succeeds. -/
  ensureOk : Bool
  /-- `connection.list_applied_migrations()` succeeds. -/
  listOk : Bool
  /-- `fs::read_to_string("./db/seeds.sql")` succeeds (otherwise the
  `.expect(...)` in `seed` panics). -/
  seedFileOk : Bool
  /-- `connection.begin()` succeeds in `seed`. -/
  beginOk : Bool
  /-- `transaction.execute(statements)` succeeds in `seed`. -/
  seedExecOk : Bool
  /-- Abstract effects of the seed script: the rows the batch would add
  to the target database if committed. -/
  seedStatements : List String
  /-- The migrations discovered in the migration directory, in
  file-system discovery order (pre-sort). -/
  source : List Migration
  /-- Versions already recorded in the `_sqlx_migrations` ledger of the
  target database, as returned by `list_applied_migrations`. -/
  ledger0 : List Int
  /-- Per-version success oracle for `connection.apply(migration)`:
  whether that migration's statements (plus its ledger insert, which sqlx
  commits atomically with them) succeed. -/
  applyOk : Int → Bool

/-- Result of one `migrate` invocation: the function's `Result` value,
the final contents of the ledger (versions recorded in
`_sqlx_migrations`, initial rows first, then newly committed ones in
application order), and the trace of versions passed to
`connection.apply`, in call order. -/
structure MigrateResult where
  outcome : Outcome Nat
  ledger : List Int
  attempted : List Int
deriving DecidableEq, Repr

/-- The literal `anyhow` context attached when `connection.apply` fails:
the placeholder braces in the source string are never interpolated, so
the message is this constant. -/
def applyFailError : DbError := ⟨"Failed to apply migration \x7b\x7d!"⟩

/-- The `for migration in migrator.iter()` loop of `migrate`: `snapshot`
is the `applied_migrations` map materialised before the loop (only
version membership matters), `ledger` the live ledger rows, `att` the
trace of `apply` calls so far, `n` the `applied` counter. A migration
whose version is in the snapshot is skipped; otherwise
`connection.apply` either commits its statements together with its
ledger row (oracle true) or fails, in which case the `?` on
`.context("Failed to apply migration \x7b\x7d!")` exits the loop at
once with the migration rolled back. -/
def migrateLoop (applyOk : Int → Bool) (snapshot : List Int) :
    List Migration → List Int → List Int → Nat → MigrateResult
  | [], ledger, att, n => ⟨.ok n, ledger, att⟩
  | m :: rest, ledger, att, n =>
    if snapshot.contains m.version then
      migrateLoop applyOk snapshot rest ledger att n
    else if applyOk m.version then
      migrateLoop applyOk snapshot rest (ledger ++ [m.version])
        (att ++ [m.version]) (n + 1)
    else
      ⟨.err applyFailError, ledger, att ++ [m.version]⟩

/-- `migrate(ui, config)`: build the migrator (sorted source), connect to
the target database, ensure the ledger table, snapshot the applied
versions, then run the loop; returns the count of newly applied
migrations. -/
def migrate (env : Env) : MigrateResult :=
  if !env.urlValid then ⟨.panicked "Invalid DATABASE_URL!", env.ledger0, []⟩
  else if !env.migratorOk then ⟨.err ⟨"Failed to create migrator!"⟩, env.ledger0, []⟩
  else if !env.targetConnectOk then ⟨.err ⟨"Failed to connect to database!"⟩, env.ledger0, []⟩
  else if !env.ensureOk then ⟨.err ⟨"Failed to ensure migrations table!"⟩, env.ledger0, []⟩
  else if !env.listOk then ⟨.err ⟨"Failed to list applied migrations!"⟩, env.ledger0, []⟩
  else migrateLoop env.applyOk env.ledger0 (sortMigrations env.source) env.ledger0 [] 0

/-- The pending set of a run: the sorted source filtered to versions not
in the pre-loop ledger snapshot, order preserved. -/
def pendingOf (env : Env) : List Migration :=
  (sortMigrations env.source).filter (fun m => !(env.ledger0.contains m.version))

/-- One statement issued over an administrative connection: the database
the connection is attached to and the SQL text executed. -/
structure SqlAction where
  connDb : String
  stmt : String
deriving DecidableEq, Repr

/-- The fixed administrative database name:
`db_config.clone().database("postgres")` in `get_root_db_client`. -/
def rootDbName : String := "postgres"

/-- `drop(config)`: resolve the target name, connect to the
administrative database, execute `DROP DATABASE <name>`, return the
name. Alongside the `Result`, the list of statements actually issued
(with the database each connection was attached to) is returned. -/
def drop (env : Env) : Outcome String × List SqlAction :=
  if !env.urlValid then (.panicked "Invalid DATABASE_URL!", [])
  else
    match env.dbName with
    | none => (.err ⟨"Failed to get database name!"⟩, [])
    | some name =>
      if !env.rootConnectOk then (.panicked "connect_with failed", [])
      else
        let act : SqlAction := ⟨rootDbName, "DROP DATABASE " ++ name⟩
        if env.dropOk then (.ok name, [act])
        else (.err ⟨"Failed to drop database!"⟩, [act])

/-- `create(config)`: resolve the target name, connect to the
administrative database, execute `CREATE DATABASE <name>`, return the
name. -/
def create (env : Env) : Outcome String × List SqlAction :=
  if !env.urlValid then (.panicked "Invalid DATABASE_URL!", [])
  else
    match env.dbName with
    | none => (.err ⟨"Failed to get database name!"⟩, [])
    | some name =>
      if !env.rootConnectOk then (.panicked "connect_with failed", [])
      else
        let act : SqlAction := ⟨rootDbName, "CREATE DATABASE " ++ name⟩
        if env.createOk then (.ok name, [act])
        else (.err ⟨"Failed to create database!"⟩, [act])

/-- Abstract state of the target database for the seed path: the rows
committed so far. -/
structure TargetDb where
  rows : List String
deriving DecidableEq, Repr

/-- An open sqlx transaction: the state it was opened on plus the
effects buffered inside it, visible only after a commit. -/
structure Txn where
  base : TargetDb
  pending : List String
deriving DecidableEq, Repr

/-- `connection.begin()`: open a transaction with an empty buffer. -/
def beginTxn (db : TargetDb) : Txn := ⟨db, []⟩

/-- `transaction.execute(statements)`: buffer the statements' effects
inside the open transaction. -/
def txnExecute (t : Txn) (stmts : List String) : Txn :=
  ⟨t.base, t.pending ++ stmts⟩

/-- `transaction.commit()`: make the buffered effects durable. -/
def commitTxn (t : Txn) : TargetDb := ⟨t.base.rows ++ t.pending⟩

/-- Modelled from the spec: a sqlx `Transaction` that is dropped without
`commit()` being called rolls back (documented sqlx behaviour; the
rollback itself lives in the sqlx dependency, not under `src/`), so the
database reverts to the state the transaction was opened on. -/
def dropTxn (t : Txn) : TargetDb := t.base

/-- `seed(config)`: connect to the target database (`get_db_client`,
panicking on connect failure), read `./db/seeds.sql` (panicking when it
is missing), begin a transaction, execute the batch inside it, and
return `Ok(())`. The function returns without ever calling
`transaction.commit()`, so the transaction goes out of scope and is
dropped. Returns the function's `Result` and the resulting state of the
target database. -/
def seed (env : Env) (db : TargetDb) : Outcome Unit × TargetDb :=
  if !env.urlValid then (.panicked "Invalid DATABASE_URL!", db)
  else if !env.targetConnectOk then (.panicked "connect_with failed", db)
  else if !env.seedFileOk then
    (.panicked "Could not read seeds – make sure db/seeds.sql exists!", db)
  else if !env.beginOk then (.err ⟨"Failed to start transaction!"⟩, db)
  else
    let t := beginTxn db
    if !env.seedExecOk then (.err ⟨"Failed to execute seeds!"⟩, dropTxn t)
    else
      let t1 := txnExecute t env.seedStatements
      (.ok (), dropTxn t1)

/-- The three steps `reset` can invoke, recorded in invocation order. -/
inductive Step where
  | drop : Step
  | create : Step
  | migrate : Step
deriving DecidableEq, Repr

/-- `reset(ui, config)`: `drop(config).await?`, then
`create(config).await?` binding the database name, then `migrate`, whose
`Ok` is replaced by the name from `create`. Alongside the `Result`, the
trace of steps actually invoked is returned; a step's panic aborts the
process there, so later steps are likewise never invoked. -/
def reset (env : Env) : Outcome String × List Step :=
  match (drop env).1 with
  | .panicked m => (.panicked m, [Step.drop])
  | .err e => (.err e, [Step.drop])
  | .ok _ =>
    match (create env).1 with
    | .panicked m => (.panicked m, [Step.drop, Step.create])
    | .err e => (.err e, [Step.drop, Step.create])
    | .ok dbName =>
      match (migrate env).outcome with
      | .panicked m => (.panicked m, [Step.drop, Step.create, Step.migrate])
      | .err e => (.err e, [Step.drop, Step.create, Step.migrate])
      | .ok _ => (.ok dbName, [Step.drop, Step.create, Step.migrate])

/-- Pending test used by the loop: the version is absent from the
pre-loop snapshot of applied migrations. -/
def isPending (snapshot : List Int) (m : Migration) : Bool :=
  !(snapshot.contains m.version)

theorem pendingOf_eq (env : Env) :
    pendingOf env = (sortMigrations env.source).filter (isPending env.ledger0) := rfl

/-- A run in which every pending migration's statements succeed applies
exactly the pending migrations, in order, appending their versions to the
ledger and to the attempt trace, and counts them. -/
theorem migrateLoop_all_ok (applyOk : Int → Bool) (snapshot : List Int)
    (ms : List Migration) (ledger att : List Int) (n : Nat)
    (h : ∀ m ∈ ms, isPending snapshot m = true → applyOk m.version = true) :
    migrateLoop applyOk snapshot ms ledger att n =
      ⟨.ok (n + (ms.filter (isPending snapshot)).length),
       ledger ++ (ms.filter (isPending snapshot)).map Migration.version,
       att ++ (ms.filter (isPending snapshot)).map Migration.version⟩ := by
  induction ms generalizing ledger att n with
  | nil => simp [migrateLoop]
  | cons m rest ih =>
    by_cases hc : snapshot.contains m.version
    · have hmem : m.version ∈ snapshot := by simpa using hc
      rw [migrateLoop, if_pos hc, ih _ _ _ (fun x hx => h x (List.mem_cons_of_mem m hx)),
        List.filter_cons_of_neg (by simp [isPending, hmem])]
    · have hmem : m.version ∉ snapshot := by simpa using hc
      have hp : isPending snapshot m = true := by simp [isPending, hmem]
      have hap : applyOk m.version = true := h m (List.mem_cons_self m rest) hp
      rw [migrateLoop, if_neg hc, if_pos hap,
        ih _ _ _ (fun x hx => h x (List.mem_cons_of_mem m hx)),
        List.filter_cons_of_pos (by simp only [isPending]; simpa using hc)]
      simp [List.append_assoc, Nat.add_comm, Nat.add_assoc, Nat.add_left_comm]

/-- A run whose pending list splits as `p1 ++ f :: p2`, with every
migration of `p1` succeeding and `f` failing, commits exactly `p1`,
attempts `p1` and then `f`, and exits with the constant apply error;
nothing after `f` is attempted. -/
theorem migrateLoop_first_fail (applyOk : Int → Bool) (snapshot : List Int)
    (ms : List Migration) (ledger att : List Int) (n : Nat)
    (p1 : List Migration) (f : Migration) (p2 : List Migration)
    (hsplit : ms.filter (isPending snapshot) = p1 ++ f :: p2)
    (h1 : ∀ m ∈ p1, applyOk m.version = true)
    (hf : applyOk f.version = false) :
    migrateLoop applyOk snapshot ms ledger att n =
      ⟨.err applyFailError,
       ledger ++ p1.map Migration.version,
       att ++ p1.map Migration.version ++ [f.version]⟩ := by
  induction ms generalizing ledger att n p1 with
  | nil => simp at hsplit
  | cons m rest ih =>
    by_cases hc : snapshot.contains m.version
    · have hmem : m.version ∈ snapshot := by simpa using hc
      rw [List.filter_cons_of_neg (by simp [isPending, hmem])] at hsplit
      rw [migrateLoop, if_pos hc, ih _ _ _ _ hsplit h1]
    · have hmem : m.version ∉ snapshot := by simpa using hc
      rw [List.filter_cons_of_pos (by simp only [isPending]; simpa using hc)] at hsplit
      cases p1 with
      | nil =>
        simp only [List.nil_append, List.cons.injEq] at hsplit
        rw [migrateLoop, if_neg hc, if_neg (by rw [hsplit.1]; simp [hf])]
        simp [hsplit.1]
      | cons q p1t =>
        simp only [List.cons_append, List.cons.injEq] at hsplit
        have hq : applyOk m.version = true := by
          rw [hsplit.1]; exact h1 q (List.mem_cons_self q p1t)
        rw [migrateLoop, if_neg hc, if_pos hq,
          ih _ _ _ _ hsplit.2 (fun x hx => h1 x (List.mem_cons_of_mem q hx))]
        simp [hsplit.1, List.append_assoc]

/-- Every version attempted by the loop comes from the attempt trace it
started with or from the migrations it was given. -/
theorem migrateLoop_attempted_sub (applyOk : Int → Bool) (snapshot : List Int)
    (ms : List Migration) (ledger att : List Int) (n : Nat) :
    ∀ v ∈ (migrateLoop applyOk snapshot ms ledger att n).attempted,
      v ∈ att ∨ v ∈ ms.map Migration.version := by
  induction ms generalizing ledger att n with
  | nil => intro v hv; simp [migrateLoop] at hv; exact Or.inl hv
  | cons m rest ih =>
    intro v hv
    by_cases hc : snapshot.contains m.version
    · rw [migrateLoop, if_pos hc] at hv
      rcases ih _ _ _ _ hv with h | h
      · exact Or.inl h
      · exact Or.inr (by simp [h])
    · by_cases ha : applyOk m.version
      · rw [migrateLoop, if_neg hc, if_pos ha] at hv
        rcases ih _ _ _ _ hv with h | h
        · rcases List.mem_append.1 h with h' | h'
          · exact Or.inl h'
          · exact Or.inr (by simp at h'; simp [h'])
        · exact Or.inr (by simp [h])
      · rw [migrateLoop, if_neg hc, if_neg ha] at hv
        simp only at hv
        rcases List.mem_append.1 hv with h | h
        · exact Or.inl h
        · exact Or.inr (by simp at h; simp [h])

/-- The loop's control flow depends on the snapshot only through
membership of the given migrations' versions: two snapshots agreeing
there produce the same outcome and the same attempt trace (the live
ledger accumulators may differ). -/
theorem migrateLoop_snapshot_congr (applyOk : Int → Bool)
    (snap snap' : List Int) (ms : List Migration)
    (ledger ledger' att : List Int) (n : Nat)
    (h : ∀ m ∈ ms, snap.contains m.version = snap'.contains m.version) :
    (migrateLoop applyOk snap ms ledger att n).outcome =
        (migrateLoop applyOk snap' ms ledger' att n).outcome ∧
      (migrateLoop applyOk snap ms ledger att n).attempted =
        (migrateLoop applyOk snap' ms ledger' att n).attempted := by
  induction ms generalizing ledger ledger' att n with
  | nil => simp [migrateLoop]
  | cons m rest ih =>
    have hm := h m (List.mem_cons_self m rest)
    by_cases hc : snap.contains m.version
    · have e1 : migrateLoop applyOk snap (m :: rest) ledger att n =
          migrateLoop applyOk snap rest ledger att n := by
        rw [migrateLoop, if_pos hc]
      have e2 : migrateLoop applyOk snap' (m :: rest) ledger' att n =
          migrateLoop applyOk snap' rest ledger' att n := by
        rw [migrateLoop, if_pos (hm ▸ hc)]
      rw [e1, e2]
      exact ih _ _ _ _ (fun x hx => h x (List.mem_cons_of_mem m hx))
    · have hc' : ¬ snap'.contains m.version = true := by rw [← hm]; exact hc
      by_cases ha : applyOk m.version
      · have e1 : migrateLoop applyOk snap (m :: rest) ledger att n =
            migrateLoop applyOk snap rest (ledger ++ [m.version])
              (att ++ [m.version]) (n + 1) := by
          rw [migrateLoop, if_neg hc, if_pos ha]
        have e2 : migrateLoop applyOk snap' (m :: rest) ledger' att n =
            migrateLoop applyOk snap' rest (ledger' ++ [m.version])
              (att ++ [m.version]) (n + 1) := by
          rw [migrateLoop, if_neg hc', if_pos ha]
        rw [e1, e2]
        exact ih _ _ _ _ (fun x hx => h x (List.mem_cons_of_mem m hx))
      · have e1 : migrateLoop applyOk snap (m :: rest) ledger att n =
            ⟨.err applyFailError, ledger, att ++ [m.version]⟩ := by
          rw [migrateLoop, if_neg hc, if_neg ha]
        have e2 : migrateLoop applyOk snap' (m :: rest) ledger' att n =
            ⟨.err applyFailError, ledger', att ++ [m.version]⟩ := by
          rw [migrateLoop, if_neg hc', if_neg ha]
        rw [e1, e2]
        exact ⟨rfl, rfl⟩

/-- Every list either satisfies a boolean predicate everywhere or splits
at its first failing element. -/
theorem list_split_firstFalse {α : Type} (q : α → Bool) (l : List α) :
    (∀ x ∈ l, q x = true) ∨
      ∃ l1 x l2, l = l1 ++ x :: l2 ∧ (∀ y ∈ l1, q y = true) ∧ q x = false := by
  induction l with
  | nil => exact Or.inl (by simp)
  | cons a t ih =>
    by_cases ha : q a = true
    · rcases ih with h | ⟨l1, x, l2, he, h1, hx⟩
      · refine Or.inl ?_
        intro y hy
        rcases List.mem_cons.1 hy with h' | h'
        · rw [h']; exact ha
        · exact h y h'
      · refine Or.inr ⟨a :: l1, x, l2, by rw [he]; rfl, ?_, hx⟩
        intro y hy
        rcases List.mem_cons.1 hy with h' | h'
        · rw [h']; exact ha
        · exact h1 y h'
    · exact Or.inr ⟨[], a, t, rfl, by simp, by simpa using ha⟩

theorem sortMigrations_pairwise (ms : List Migration) :
    List.Pairwise migLE (sortMigrations ms) :=
  List.sorted_insertionSort migLE ms

theorem sortMigrations_perm (ms : List Migration) :
    (sortMigrations ms).Perm ms :=
  List.perm_insertionSort migLE ms

/-- Two discovery orders of the same migrations resolve to the same
sorted sequence. -/
theorem sortMigrations_eq_of_perm {ms1 ms2 : List Migration}
    (h : ms1.Perm ms2) : sortMigrations ms1 = sortMigrations ms2 :=
  List.eq_of_perm_of_sorted
    ((sortMigrations_perm ms1).trans (h.trans (sortMigrations_perm ms2).symm))
    (List.sorted_insertionSort migLE ms1) (List.sorted_insertionSort migLE ms2)

/-- A weakly ascending list of integers without duplicates is strictly
ascending. -/
theorem pairwise_lt_of_le_nodup {l : List Int}
    (h1 : List.Pairwise (fun a b => a ≤ b) l) (h2 : l.Nodup) :
    List.Pairwise (fun a b => a < b) l :=
  (h1.and h2).imp (fun h => lt_of_le_of_ne h.1 h.2)

/-- With every collaborator up to the loop healthy, `migrate` is exactly
the loop over the sorted source with the ledger snapshot. -/
theorem migrate_run (env : Env) (hu : env.urlValid = true)
    (hm : env.migratorOk = true) (ht : env.targetConnectOk = true)
    (he : env.ensureOk = true) (hl : env.listOk = true) :
    migrate env =
      migrateLoop env.applyOk env.ledger0 (sortMigrations env.source)
        env.ledger0 [] 0 := by
  simp [migrate, hu, hm, ht, he, hl]

/-- The loop itself never panics: it exits through `Ok` or `Err`. -/
theorem migrateLoop_viaResult (applyOk : Int → Bool) (snapshot : List Int)
    (ms : List Migration) (ledger att : List Int) (n : Nat) :
    (migrateLoop applyOk snapshot ms ledger att n).outcome.viaResult = true := by
  induction ms generalizing ledger att n with
  | nil => simp [migrateLoop, Outcome.viaResult]
  | cons m rest ih =>
    by_cases hc : snapshot.contains m.version
    · rw [migrateLoop, if_pos hc]; exact ih _ _ _
    · by_cases ha : applyOk m.version
      · rw [migrateLoop, if_neg hc, if_pos ha]; exact ih _ _ _
      · rw [migrateLoop, if_neg hc, if_neg ha]; rfl

@[simp] theorem viaResult_ok {α : Type} (a : α) :
    (Outcome.ok a).viaResult = true := rfl

@[simp] theorem viaResult_err {α : Type} (e : DbError) :
    (Outcome.err e : Outcome α).viaResult = true := rfl

@[simp] theorem viaResult_panicked {α : Type} (m : String) :
    (Outcome.panicked m : Outcome α).viaResult = false := rfl

/-- `drop` leaves through its `Result` unless the descriptor is malformed
or the administrative connection fails. -/
theorem drop_panic_flags (env : Env)
    (h : (drop env).1.viaResult = false) :
    env.urlValid = false ∨ env.rootConnectOk = false := by
  by_cases hu : env.urlValid
  · by_cases hr : env.rootConnectOk
    · exfalso
      revert h
      simp only [drop, hu, hr, Bool.not_true, Bool.false_eq_true, if_false]
      cases env.dbName with
      | none => simp [Outcome.viaResult]
      | some n =>
        by_cases hd : env.dropOk <;> simp [Outcome.viaResult, hd]
    · exact Or.inr (by simpa using hr)
  · exact Or.inl (by simpa using hu)

/-- `create` leaves through its `Result` unless the descriptor is
malformed or the administrative connection fails. -/
theorem create_panic_flags (env : Env)
    (h : (create env).1.viaResult = false) :
    env.urlValid = false ∨ env.rootConnectOk = false := by
  by_cases hu : env.urlValid
  · by_cases hr : env.rootConnectOk
    · exfalso
      revert h
      simp only [create, hu, hr, Bool.not_true, Bool.false_eq_true, if_false]
      cases env.dbName with
      | none => simp [Outcome.viaResult]
      | some n =>
        by_cases hc : env.createOk <;> simp [Outcome.viaResult, hc]
    · exact Or.inr (by simpa using hr)
  · exact Or.inl (by simpa using hu)

/-- `migrate` leaves through its `Result` unless the descriptor is
malformed (its target connection failure is a typed error, not a
panic). -/
theorem migrate_panic_flags (env : Env)
    (h : (migrate env).outcome.viaResult = false) :
    env.urlValid = false := by
  by_cases hu : env.urlValid
  · exfalso
    revert h
    by_cases hm : env.migratorOk <;>
      by_cases ht : env.targetConnectOk <;>
        by_cases he : env.ensureOk <;>
          by_cases hl : env.listOk <;>
            simp [migrate, hu, hm, ht, he, hl, migrateLoop_viaResult]
  · simpa using hu

/-- `seed` leaves through its `Result` unless the descriptor is
malformed, the target connection fails, or the seed file cannot be
read. -/
theorem seed_panic_flags (env : Env) (db : TargetDb)
    (h : (seed env db).1.viaResult = false) :
    env.urlValid = false ∨ env.targetConnectOk = false ∨
      env.seedFileOk = false := by
  by_cases hu : env.urlValid
  · by_cases ht : env.targetConnectOk
    · by_cases hs : env.seedFileOk
      · exfalso
        revert h
        by_cases hb : env.beginOk <;>
          by_cases hx : env.seedExecOk <;>
            simp [seed, hu, ht, hs, hb, hx, Outcome.viaResult]
      · exact Or.inr (Or.inr (by simpa using hs))
    · exact Or.inr (Or.inl (by simpa using ht))
  · exact Or.inl (by simpa using hu)

/-- A concrete healthy environment: every collaborator succeeds, the
migration directory holds versions 1, 2, 3 discovered out of order, and
the ledger already records versions 1 and 2. -/
def envBase : Env where
  urlValid := true
  dbName := some "app_db"
  rootConnectOk := true
  targetConnectOk := true
  dropOk := true
  createOk := true
  migratorOk := true
  ensureOk := true
  listOk := true
  seedFileOk := true
  beginOk := true
  seedExecOk := true
  seedStatements := ["INSERT INTO users"]
  source := [⟨3⟩, ⟨1⟩, ⟨2⟩]
  ledger0 := [1, 2]
  applyOk := fun _ => true

/-- C4: for every migration source and ledger state, when every pending
migration succeeds, `migrate` applies exactly the migrations whose
versions appear in the source but not in the ledger (in ascending order),
returns their count, and never passes a version already in the ledger to
`connection.apply`. -/
theorem migrate_applies_exactly_pending (env : Env)
    (hu : env.urlValid = true) (hm : env.migratorOk = true)
    (ht : env.targetConnectOk = true) (he : env.ensureOk = true)
    (hl : env.listOk = true)
    (hok : ∀ m ∈ pendingOf env, env.applyOk m.version = true) :
    migrate env =
      ⟨Outcome.ok (pendingOf env).length,
       env.ledger0 ++ (pendingOf env).map Migration.version,
       (pendingOf env).map Migration.version⟩ ∧
    ∀ v ∈ env.ledger0, v ∉ (migrate env).attempted := by
  have hrun := migrate_run env hu hm ht he hl
  have hall : ∀ m ∈ sortMigrations env.source,
      isPending env.ledger0 m = true → env.applyOk m.version = true := by
    intro m hm' hp
    exact hok m (List.mem_filter.2 ⟨hm', hp⟩)
  have hloop := migrateLoop_all_ok env.applyOk env.ledger0
    (sortMigrations env.source) env.ledger0 [] 0 hall
  constructor
  · rw [pendingOf_eq, hrun, hloop]
    simp
  · intro v hv hvatt
    rw [hrun, hloop] at hvatt
    simp only [List.nil_append] at hvatt
    rcases List.mem_map.1 hvatt with ⟨m, hmf, hveq⟩
    have hpend : isPending env.ledger0 m = true := (List.mem_filter.1 hmf).2
    rw [isPending] at hpend
    have : m.version ∉ env.ledger0 := by simpa using hpend
    exact this (hveq ▸ hv)

/-- C4 witness: with ledger `[1, 2]` and source versions `[3, 1, 2]`
(discovered out of order), `migrate` applies only version 3 and returns
a count of 1, never re-applying 1 or 2. -/
theorem migrate_applies_exactly_pending_witness :
    (migrate envBase =
      ⟨Outcome.ok (pendingOf envBase).length,
       envBase.ledger0 ++ (pendingOf envBase).map Migration.version,
       (pendingOf envBase).map Migration.version⟩ ∧
    ∀ v ∈ envBase.ledger0, v ∉ (migrate envBase).attempted) ∧
    migrate envBase = ⟨Outcome.ok 1, [1, 2, 3], [3]⟩ :=
  ⟨migrate_applies_exactly_pending envBase rfl rfl rfl rfl rfl (by decide),
   by decide⟩

/-- A healthy environment with an empty ledger, versions 1, 2, 3
discovered out of order, and version 2 failing to apply. -/
def envHalt : Env :=
  { envBase with
    ledger0 := []
    source := [⟨2⟩, ⟨1⟩, ⟨3⟩]
    applyOk := fun v => decide (v ≠ 2) }

/-- C3: when the pending list splits as `p1 ++ f :: p2` with every
migration of `p1` succeeding and `f` failing, `migrate` stops at `f`:
exactly the migrations of `p1` are applied and recorded in the ledger,
`f` is the last version attempted, and nothing in `p2` is ever
attempted. -/
theorem migrate_halt_on_failure (env : Env)
    (hu : env.urlValid = true) (hm : env.migratorOk = true)
    (ht : env.targetConnectOk = true) (he : env.ensureOk = true)
    (hl : env.listOk = true)
    (p1 : List Migration) (f : Migration) (p2 : List Migration)
    (hsplit : pendingOf env = p1 ++ f :: p2)
    (h1 : ∀ m ∈ p1, env.applyOk m.version = true)
    (hf : env.applyOk f.version = false)
    (hnd : ((pendingOf env).map Migration.version).Nodup) :
    migrate env =
      ⟨Outcome.err applyFailError,
       env.ledger0 ++ p1.map Migration.version,
       p1.map Migration.version ++ [f.version]⟩ ∧
    ∀ m ∈ p2, m.version ∉ (migrate env).attempted := by
  have hrun := migrate_run env hu hm ht he hl
  have hloop := migrateLoop_first_fail env.applyOk env.ledger0
    (sortMigrations env.source) env.ledger0 [] 0 p1 f p2
    (by rw [← pendingOf_eq]; exact hsplit) h1 hf
  constructor
  · rw [hrun, hloop]
    simp
  · intro m hm2 hma
    rw [hrun, hloop] at hma
    simp only [List.nil_append] at hma
    rw [hsplit, List.map_append, List.map_cons] at hnd
    rcases List.nodup_append.1 hnd with ⟨_, hnd2, hdisj⟩
    have hmem2 : m.version ∈ p2.map Migration.version :=
      List.mem_map_of_mem Migration.version hm2
    rcases List.mem_append.1 hma with h | h
    · exact hdisj h (List.mem_cons_of_mem _ hmem2)
    · have hfe : m.version = f.version := by simpa using h
      have : f.version ∉ p2.map Migration.version :=
        (List.nodup_cons.1 hnd2).1
      exact this (hfe ▸ hmem2)

/-- C3 witness: with pending versions 1, 2, 3 and version 2 failing,
`migrate` commits exactly version 1, attempts 2 last, and never
attempts version 3. -/
theorem migrate_halt_on_failure_witness :
    (migrate envHalt =
      ⟨Outcome.err applyFailError,
       envHalt.ledger0 ++ [Migration.mk 1].map Migration.version,
       [Migration.mk 1].map Migration.version ++ [(Migration.mk 2).version]⟩ ∧
    ∀ m ∈ [Migration.mk 3], m.version ∉ (migrate envHalt).attempted) ∧
    migrate envHalt = ⟨Outcome.err applyFailError, [1], [1, 2]⟩ :=
  ⟨migrate_halt_on_failure envHalt rfl rfl rfl rfl rfl
      [⟨1⟩] ⟨2⟩ [⟨3⟩] (by decide) (by decide) (by decide) (by decide),
   by decide⟩

/-- An empty attempt trace is trivially strictly sorted and trivially
committed before any successor. -/
theorem pairwiseLtDropLastTrivial (r : MigrateResult) (h : r.attempted = []) :
    List.Pairwise (fun a b : Int => a < b) r.attempted ∧
    (∀ v ∈ r.attempted.dropLast, v ∈ r.ledger) := by
  rw [h]
  exact ⟨List.Pairwise.nil, by simp⟩

/-- C5: with distinct source versions, the versions passed to
`connection.apply` form a strictly ascending sequence whatever the
discovery order; every attempted version except possibly the last (the
failing one) is committed to the ledger before any later attempt; and
permuting the discovery order of the source changes nothing about the
run. -/
theorem migrate_ascending_order (env : Env)
    (hnd : (env.source.map Migration.version).Nodup) :
    List.Pairwise (fun a b : Int => a < b) (migrate env).attempted ∧
    (∀ v ∈ (migrate env).attempted.dropLast, v ∈ (migrate env).ledger) ∧
    (∀ src2 : List Migration, src2.Perm env.source →
      migrate { env with source := src2 } = migrate env) := by
  have third : ∀ src2 : List Migration, src2.Perm env.source →
      migrate { env with source := src2 } = migrate env := by
    intro src2 hp
    have hs : sortMigrations src2 = sortMigrations env.source :=
      sortMigrations_eq_of_perm hp
    simp only [migrate, hs]
  have key : List.Pairwise (fun a b : Int => a < b) (migrate env).attempted ∧
      (∀ v ∈ (migrate env).attempted.dropLast, v ∈ (migrate env).ledger) := by
    by_cases hu : env.urlValid
    · by_cases hm : env.migratorOk
      · by_cases ht : env.targetConnectOk
        · by_cases he : env.ensureOk
          · by_cases hl : env.listOk
            · have hrun := migrate_run env hu hm ht he hl
              have hpendLe : List.Pairwise migLE (pendingOf env) :=
                (sortMigrations_pairwise env.source).filter _
              have hmapLe : List.Pairwise (fun a b : Int => a ≤ b)
                  ((pendingOf env).map Migration.version) :=
                hpendLe.map _ (fun a b h => h)
              have hndPend : ((pendingOf env).map Migration.version).Nodup := by
                have hpm :
                    ((sortMigrations env.source).map Migration.version).Nodup :=
                  (((sortMigrations_perm env.source).map
                    Migration.version).nodup_iff).2 hnd
                exact List.Nodup.sublist
                  ((List.filter_sublist
                    (sortMigrations env.source)).map Migration.version) hpm
              have hpendLt : List.Pairwise (fun a b : Int => a < b)
                  ((pendingOf env).map Migration.version) :=
                pairwise_lt_of_le_nodup hmapLe hndPend
              rcases list_split_firstFalse (fun m => env.applyOk m.version)
                  (pendingOf env)
                with hall | ⟨p1, f, p2, hsp, h1, hf⟩
              · have hloop := migrateLoop_all_ok env.applyOk env.ledger0
                  (sortMigrations env.source) env.ledger0 [] 0
                  (fun m hm' hp => hall m (List.mem_filter.2 ⟨hm', hp⟩))
                rw [hrun, hloop, ← pendingOf_eq]
                constructor
                · simpa using hpendLt
                · intro v hv
                  simp only [List.nil_append] at hv ⊢
                  exact List.mem_append.2
                    (Or.inr ((List.dropLast_sublist _).subset hv))
              · have hloop := migrateLoop_first_fail env.applyOk env.ledger0
                  (sortMigrations env.source) env.ledger0 [] 0 p1 f p2
                  (by rw [← pendingOf_eq]; exact hsp) h1 hf
                rw [hrun, hloop]
                constructor
                · simp only [List.nil_append]
                  have hattEq : p1.map Migration.version ++ [f.version] =
                      (p1 ++ [f]).map Migration.version := by simp
                  rw [hattEq]
                  have hsub2 : (p1 ++ [f]).Sublist (pendingOf env) := by
                    rw [hsp]
                    exact List.Sublist.append_left
                      (List.Sublist.cons₂ f (List.nil_sublist p2)) p1
                  exact hpendLt.sublist (hsub2.map Migration.version)
                · intro v hv
                  simp only [List.nil_append] at hv ⊢
                  have hdl : (p1.map Migration.version ++ [f.version]).dropLast =
                      p1.map Migration.version := by simp
                  rw [hdl] at hv
                  exact List.mem_append.2 (Or.inr hv)
            · exact pairwiseLtDropLastTrivial _
                (by simp [migrate, hu, hm, ht, he, hl])
          · exact pairwiseLtDropLastTrivial _ (by simp [migrate, hu, hm, ht, he])
        · exact pairwiseLtDropLastTrivial _ (by simp [migrate, hu, hm, ht])
      · exact pairwiseLtDropLastTrivial _ (by simp [migrate, hu, hm])
    · exact pairwiseLtDropLastTrivial _ (by simp [migrate, hu])
  exact ⟨key.1, key.2, third⟩

/-- C5 witness: on the healthy environment with source versions
discovered as `[3, 1, 2]`, the attempt trace is strictly ascending, all
attempts but the last are in the final ledger, and re-ordering the
discovery to `[1, 2, 3]` changes nothing. -/
theorem migrate_ascending_order_witness :
    List.Pairwise (fun a b : Int => a < b) (migrate envBase).attempted ∧
    (∀ v ∈ (migrate envBase).attempted.dropLast, v ∈ (migrate envBase).ledger) ∧
    migrate { envBase with source := [⟨1⟩, ⟨2⟩, ⟨3⟩] } = migrate envBase := by
  have h := migrate_ascending_order envBase (by decide)
  exact ⟨h.1, h.2.1, h.2.2 [⟨1⟩, ⟨2⟩, ⟨3⟩] (by decide)⟩

/-- C6: after any successful `migrate` run, running `migrate` again with
the ledger the first run left behind (and no new migrations) applies
nothing and returns a count of 0, leaving the ledger unchanged. -/
theorem migrate_second_run_zero (env : Env) (n : Nat)
    (hsucc : (migrate env).outcome = Outcome.ok n) :
    migrate { env with ledger0 := (migrate env).ledger } =
      ⟨Outcome.ok 0, (migrate env).ledger, []⟩ := by
  have hu : env.urlValid = true := by
    by_contra h
    have hfalse : env.urlValid = false := by simpa using h
    rw [migrate] at hsucc
    simp [hfalse] at hsucc
  have hm : env.migratorOk = true := by
    by_contra h
    have hfalse : env.migratorOk = false := by simpa using h
    rw [migrate] at hsucc
    simp [hu, hfalse] at hsucc
  have ht : env.targetConnectOk = true := by
    by_contra h
    have hfalse : env.targetConnectOk = false := by simpa using h
    rw [migrate] at hsucc
    simp [hu, hm, hfalse] at hsucc
  have he : env.ensureOk = true := by
    by_contra h
    have hfalse : env.ensureOk = false := by simpa using h
    rw [migrate] at hsucc
    simp [hu, hm, ht, hfalse] at hsucc
  have hl : env.listOk = true := by
    by_contra h
    have hfalse : env.listOk = false := by simpa using h
    rw [migrate] at hsucc
    simp [hu, hm, ht, he, hfalse] at hsucc
  have hrun := migrate_run env hu hm ht he hl
  rcases list_split_firstFalse (fun m => env.applyOk m.version) (pendingOf env)
    with hall | ⟨p1, f, p2, hsp, h1, hf⟩
  · have hloop := migrateLoop_all_ok env.applyOk env.ledger0
      (sortMigrations env.source) env.ledger0 [] 0
      (fun m hm' hp => hall m (List.mem_filter.2 ⟨hm', hp⟩))
    have hL : (migrate env).ledger =
        env.ledger0 ++
          ((sortMigrations env.source).filter
            (isPending env.ledger0)).map Migration.version := by
      rw [hrun, hloop]
    have hfil : (sortMigrations env.source).filter
        (isPending ((migrate env).ledger)) = [] := by
      rw [List.filter_eq_nil_iff]
      intro m hm'
      intro hp
      have hmem : m.version ∈ (migrate env).ledger := by
        rw [hL]
        by_cases hc : m.version ∈ env.ledger0
        · exact List.mem_append.2 (Or.inl hc)
        · refine List.mem_append.2 (Or.inr ?_)
          exact List.mem_map_of_mem Migration.version
            (List.mem_filter.2 ⟨hm', by simp [isPending, hc]⟩)
      rw [isPending] at hp
      have : m.version ∉ (migrate env).ledger := by simpa using hp
      exact this hmem
    have hrun2 := migrate_run { env with ledger0 := (migrate env).ledger }
      hu hm ht he hl
    have final : migrateLoop env.applyOk ((migrate env).ledger)
        (sortMigrations env.source) ((migrate env).ledger) [] 0 =
        ⟨Outcome.ok 0, (migrate env).ledger, []⟩ := by
      have hloop2 := migrateLoop_all_ok env.applyOk ((migrate env).ledger)
        (sortMigrations env.source) ((migrate env).ledger) [] 0
        (fun m hm' hp =>
          absurd (List.mem_filter.2 ⟨hm', hp⟩) (by rw [hfil]; simp))
      rw [hloop2, hfil]
      simp
    calc migrate { env with ledger0 := (migrate env).ledger }
        = migrateLoop env.applyOk ((migrate env).ledger)
            (sortMigrations env.source) ((migrate env).ledger) [] 0 := hrun2
      _ = ⟨Outcome.ok 0, (migrate env).ledger, []⟩ := final
  · exfalso
    have hloop := migrateLoop_first_fail env.applyOk env.ledger0
      (sortMigrations env.source) env.ledger0 [] 0 p1 f p2
      (by rw [← pendingOf_eq]; exact hsp) h1 hf
    rw [hrun, hloop] at hsucc
    simp at hsucc

/-- C6 witness: after the healthy run on `envBase` (which applies
version 3 and returns 1), a second run with the resulting ledger applies
nothing and returns 0. -/
theorem migrate_second_run_zero_witness :
    migrate { envBase with ledger0 := (migrate envBase).ledger } =
      ⟨Outcome.ok 0, (migrate envBase).ledger, []⟩ :=
  migrate_second_run_zero envBase 1 rfl

/-- The same environment with the ledger rows whose versions never occur
in the migration source removed. -/
@[reducible] def stripExtraLedger (env : Env) : Env :=
  { env with
    ledger0 :=
      env.ledger0.filter
        (fun v => (env.source.map Migration.version).contains v) }

/-- Every version `migrate` ever passes to `connection.apply` is a
version of the migration source. -/
theorem migrate_attempted_src (env : Env) :
    ∀ v ∈ (migrate env).attempted, v ∈ env.source.map Migration.version := by
  intro v hv
  by_cases hu : env.urlValid
  · by_cases hm : env.migratorOk
    · by_cases ht : env.targetConnectOk
      · by_cases he : env.ensureOk
        · by_cases hl : env.listOk
          · rw [migrate_run env hu hm ht he hl] at hv
            rcases migrateLoop_attempted_sub env.applyOk env.ledger0
                (sortMigrations env.source) env.ledger0 [] 0 v hv with h | h
            · simp at h
            · rcases List.mem_map.1 h with ⟨m, hm', hveq⟩
              exact hveq ▸ List.mem_map_of_mem Migration.version
                ((sortMigrations_perm env.source).subset hm')
          · simp [migrate, hu, hm, ht, he, hl] at hv
        · simp [migrate, hu, hm, ht, he] at hv
      · simp [migrate, hu, hm, ht] at hv
    · simp [migrate, hu, hm] at hv
  · simp [migrate, hu] at hv

/-- C10: ledger versions absent from the source are silently ignored:
removing them from the initial ledger changes neither the outcome (and
hence the count) nor the attempt trace; only source versions are ever
attempted; and when every pending migration succeeds, the returned count
is the number of source versions missing from the ledger. -/
theorem migrate_ignores_extra_ledger (env : Env) :
    ((migrate env).outcome = (migrate (stripExtraLedger env)).outcome ∧
      (migrate env).attempted = (migrate (stripExtraLedger env)).attempted) ∧
    (∀ v ∈ (migrate env).attempted, v ∈ env.source.map Migration.version) ∧
    (env.urlValid = true → env.migratorOk = true →
      env.targetConnectOk = true → env.ensureOk = true → env.listOk = true →
      (∀ m ∈ pendingOf env, env.applyOk m.version = true) →
      (migrate env).outcome = Outcome.ok (pendingOf env).length) := by
  refine ⟨?_, migrate_attempted_src env, ?_⟩
  · by_cases hu : env.urlValid
    · by_cases hm : env.migratorOk
      · by_cases ht : env.targetConnectOk
        · by_cases he : env.ensureOk
          · by_cases hl : env.listOk
            · have hmemeq : ∀ m ∈ sortMigrations env.source,
                  env.ledger0.contains m.version =
                    (env.ledger0.filter
                      (fun v =>
                        (env.source.map Migration.version).contains v)).contains
                      m.version := by
                intro m hm'
                have hv : m.version ∈ env.source.map Migration.version :=
                  List.mem_map_of_mem Migration.version
                    ((sortMigrations_perm env.source).subset hm')
                by_cases hmem : m.version ∈ env.ledger0
                · have h1 : env.ledger0.contains m.version = true := by
                    simpa using hmem
                  have h2 : (env.ledger0.filter
                      (fun v =>
                        (env.source.map Migration.version).contains v)).contains
                        m.version = true := by
                    have : m.version ∈ env.ledger0.filter
                        (fun v =>
                          (env.source.map Migration.version).contains v) :=
                      List.mem_filter.2 ⟨hmem, by simpa using hv⟩
                    simpa using this
                  rw [h1, h2]
                · have h1 : env.ledger0.contains m.version = false := by
                    simpa using hmem
                  have h2 : (env.ledger0.filter
                      (fun v =>
                        (env.source.map Migration.version).contains v)).contains
                        m.version = false := by
                    have : m.version ∉ env.ledger0.filter
                        (fun v => (env.source.map Migration.version).contains v) :=
                      fun hc => hmem (List.mem_filter.1 hc).1
                    simpa using this
                  rw [h1, h2]
              have hcong := migrateLoop_snapshot_congr env.applyOk env.ledger0
                (env.ledger0.filter
                  (fun v => (env.source.map Migration.version).contains v))
                (sortMigrations env.source) env.ledger0
                (env.ledger0.filter
                  (fun v => (env.source.map Migration.version).contains v))
                [] 0 hmemeq
              have lhs1 := migrate_run env hu hm ht he hl
              have rhs1 : migrate (stripExtraLedger env) =
                  migrateLoop env.applyOk
                    (env.ledger0.filter
                      (fun v => (env.source.map Migration.version).contains v))
                    (sortMigrations env.source)
                    (env.ledger0.filter
                      (fun v => (env.source.map Migration.version).contains v))
                    [] 0 :=
                migrate_run (stripExtraLedger env) hu hm ht he hl
              rw [lhs1, rhs1]
              exact hcong
            · constructor <;> simp [migrate, stripExtraLedger, hu, hm, ht, he, hl]
          · constructor <;> simp [migrate, stripExtraLedger, hu, hm, ht, he]
        · constructor <;> simp [migrate, stripExtraLedger, hu, hm, ht]
      · constructor <;> simp [migrate, stripExtraLedger, hu, hm]
    · constructor <;> simp [migrate, stripExtraLedger, hu]
  · intro hu hm ht he hl hok
    have hloop := migrateLoop_all_ok env.applyOk env.ledger0
      (sortMigrations env.source) env.ledger0 [] 0
      (fun m hm' hp => hok m (List.mem_filter.2 ⟨hm', hp⟩))
    rw [migrate_run env hu hm ht he hl, hloop]
    simp [pendingOf_eq]

/-- A healthy environment whose ledger records version 9, which the
source does not contain, besides versions 1 and 2. -/
def envExtra : Env := { envBase with ledger0 := [1, 2, 9] }

/-- C10 witness: with ledger `[1, 2, 9]` (9 absent from the source) and
source versions `{1, 2, 3}`, `migrate` succeeds with a count of 1 and
behaves exactly as with the extra entry removed. -/
theorem migrate_ignores_extra_ledger_witness :
    ((migrate envExtra).outcome = Outcome.ok (pendingOf envExtra).length) ∧
    (migrate envExtra).outcome = Outcome.ok 1 :=
  ⟨(migrate_ignores_extra_ledger envExtra).2.2 rfl rfl rfl rfl rfl (by decide),
   by decide⟩

/-- C7: `reset` sequences `drop`, then `create`, then `migrate`, each
step invoked only after the previous one succeeded; it stops at the
first failing step, propagating that step's own error (so a `create`
failure is reported as the `create` error and `migrate` is never
invoked), and on success returns the database name produced by
`create` — the target database name. -/
theorem reset_gates_steps (env : Env) :
    (∀ e, (drop env).1 = Outcome.err e →
      reset env = (Outcome.err e, [Step.drop])) ∧
    (∀ m, (drop env).1 = Outcome.panicked m →
      reset env = (Outcome.panicked m, [Step.drop])) ∧
    (∀ n e, (drop env).1 = Outcome.ok n → (create env).1 = Outcome.err e →
      reset env = (Outcome.err e, [Step.drop, Step.create])) ∧
    (∀ n m, (drop env).1 = Outcome.ok n → (create env).1 = Outcome.panicked m →
      reset env = (Outcome.panicked m, [Step.drop, Step.create])) ∧
    (∀ n n2 c, (drop env).1 = Outcome.ok n → (create env).1 = Outcome.ok n2 →
      (migrate env).outcome = Outcome.ok c →
      reset env = (Outcome.ok n2, [Step.drop, Step.create, Step.migrate])) ∧
    (∀ n n2 e, (drop env).1 = Outcome.ok n → (create env).1 = Outcome.ok n2 →
      (migrate env).outcome = Outcome.err e →
      reset env = (Outcome.err e, [Step.drop, Step.create, Step.migrate])) := by
  refine ⟨?_, ?_, ?_, ?_, ?_, ?_⟩
  · intro e hd; simp [reset, hd]
  · intro m hd; simp [reset, hd]
  · intro n e hd hc; simp [reset, hd, hc]
  · intro n m hd hc; simp [reset, hd, hc]
  · intro n n2 c hd hc hmg; simp [reset, hd, hc, hmg]
  · intro n n2 e hd hc hmg; simp [reset, hd, hc, hmg]

/-- The healthy environment except that the server rejects
`CREATE DATABASE`. -/
def envCreateFail : Env := { envBase with createOk := false }

/-- C7 witness: when `create` fails during `reset`, the result is
`create`'s own error, the trace is `[drop, create]`, and `migrate` is
never invoked; on the healthy environment `reset` returns the target
database name after all three steps. -/
theorem reset_gates_steps_witness :
    reset envCreateFail =
      (Outcome.err ⟨"Failed to create database!"⟩, [Step.drop, Step.create]) ∧
    Step.migrate ∉ (reset envCreateFail).2 ∧
    reset envBase =
      (Outcome.ok "app_db", [Step.drop, Step.create, Step.migrate]) := by
  have h := (reset_gates_steps envCreateFail).2.2.1 "app_db"
    ⟨"Failed to create database!"⟩ rfl rfl
  refine ⟨h, ?_, ?_⟩
  · rw [h]; decide
  · exact (reset_gates_steps envBase).2.2.2.2.1 "app_db" "app_db" 1 rfl rfl rfl

/-- C9: `drop` and `create` issue their statement over a connection
attached to the fixed administrative database `postgres`, the statement
names the target database, and on server acceptance both return the
target database name. -/
theorem drop_create_admin_db (env : Env) (n : String)
    (hu : env.urlValid = true) (hn : env.dbName = some n)
    (hr : env.rootConnectOk = true) :
    (drop env).2 = [⟨rootDbName, "DROP DATABASE " ++ n⟩] ∧
    (create env).2 = [⟨rootDbName, "CREATE DATABASE " ++ n⟩] ∧
    rootDbName = "postgres" ∧
    (env.dropOk = true → (drop env).1 = Outcome.ok n) ∧
    (env.createOk = true → (create env).1 = Outcome.ok n) := by
  refine ⟨?_, ?_, rfl, ?_, ?_⟩
  · by_cases hd : env.dropOk <;> simp [drop, hu, hn, hr, hd]
  · by_cases hc : env.createOk <;> simp [create, hu, hn, hr, hc]
  · intro hd; simp [drop, hu, hn, hr, hd]
  · intro hc; simp [create, hu, hn, hr, hc]

/-- C9 witness: on the healthy environment both statements go to the
`postgres` administrative database, name `app_db`, and the operations
return `app_db`. -/
theorem drop_create_admin_db_witness :
    ((drop envBase).2 = [⟨rootDbName, "DROP DATABASE " ++ "app_db"⟩] ∧
     (create envBase).2 = [⟨rootDbName, "CREATE DATABASE " ++ "app_db"⟩] ∧
     rootDbName = "postgres" ∧
     (envBase.dropOk = true → (drop envBase).1 = Outcome.ok "app_db") ∧
     (envBase.createOk = true → (create envBase).1 = Outcome.ok "app_db")) ∧
    (drop envBase).1 = Outcome.ok "app_db" := by
  have h := drop_create_admin_db envBase "app_db" rfl rfl rfl
  exact ⟨h, h.2.2.2.1 rfl⟩

/-- Whatever happens, `seed` hands back the target database unchanged:
its transaction is dropped without ever being committed. -/
theorem seed_never_commits (env : Env) (db : TargetDb) :
    (seed env db).2 = db := by
  rw [seed]
  split_ifs <;> rfl

/-- C1 (refuted by the code): on a fully healthy environment `seed`
returns `Ok` yet leaves the target database exactly as it found it — the
function never calls `commit`, so the transaction's buffered batch (which
a commit would have made durable, as the third conjunct shows) is rolled
back when the transaction is dropped. -/
theorem seed_ok_without_commit :
    seed envBase ⟨[]⟩ = (Outcome.ok (), ⟨[]⟩) ∧
    commitTxn (txnExecute (beginTxn ⟨[]⟩) envBase.seedStatements) =
      ⟨["INSERT INTO users"]⟩ ∧
    TargetDb.mk ["INSERT INTO users"] ≠ TargetDb.mk [] :=
  ⟨rfl, rfl, by decide⟩

/-- A healthy environment with a single pending migration, version 5,
whose statements fail. -/
def envFailOne : Env :=
  { envBase with
    ledger0 := []
    source := [⟨5⟩]
    applyOk := fun _ => false }

/-- A healthy environment with pending versions 1 and 7 where 1 succeeds
and 7 fails. -/
def envFailTwo : Env :=
  { envBase with
    ledger0 := []
    source := [⟨1⟩, ⟨7⟩]
    applyOk := fun v => decide (v < 7) }

/-- C2 (refuted by the code): the error `migrate` returns on an apply
failure is the constant string `Failed to apply migration \x7b\x7d!` —
the placeholder is never interpolated — so two runs with different
failing versions (5 with 0 prior commits vs 7 with 1 prior commit)
return identical errors: the error carries neither the failing version
nor the prior-success count. -/
theorem migrate_error_carries_nothing :
    (migrate envFailOne).outcome =
      Outcome.err ⟨"Failed to apply migration \x7b\x7d!"⟩ ∧
    (migrate envFailTwo).outcome = (migrate envFailOne).outcome ∧
    (migrate envFailOne).attempted = [5] ∧
    (migrate envFailTwo).attempted = [1, 7] ∧
    (migrate envFailTwo).ledger = [1] :=
  ⟨rfl, rfl, rfl, rfl, rfl⟩

/-- C8 counterexample: with the seed file missing, `seed` leaves through
a panic (`expect`), not through its `Result` — refuting the claim that
every failure reaches the caller as a typed failure. -/
theorem seed_escapes_result_channel :
    ((seed { envBase with seedFileOk := false } ⟨[]⟩).1).viaResult = false :=
  rfl

/-- C8 (amended): every core operation terminates with a success value
or one typed failure, except that a malformed database descriptor (any
operation), a failed administrative connection (`drop`, `create`, and
`reset` through them), or a failed target connection or unreadable seed
file (`seed`) aborts the process with a panic instead; `migrate` turns
its connection failure into a typed failure. -/
theorem core_ops_result_or_enumerated_panic (env : Env) (db : TargetDb) :
    ((drop env).1.viaResult = false →
      env.urlValid = false ∨ env.rootConnectOk = false) ∧
    ((create env).1.viaResult = false →
      env.urlValid = false ∨ env.rootConnectOk = false) ∧
    ((migrate env).outcome.viaResult = false → env.urlValid = false) ∧
    ((seed env db).1.viaResult = false →
      env.urlValid = false ∨ env.targetConnectOk = false ∨
        env.seedFileOk = false) ∧
    ((reset env).1.viaResult = false →
      env.urlValid = false ∨ env.rootConnectOk = false) := by
  refine ⟨drop_panic_flags env, create_panic_flags env, migrate_panic_flags env,
    seed_panic_flags env db, ?_⟩
  intro h
  cases hd : (drop env).1 with
  | panicked m => exact drop_panic_flags env (by rw [hd]; rfl)
  | err e => simp [reset, hd] at h
  | ok nm =>
    cases hc : (create env).1 with
    | panicked m => exact create_panic_flags env (by rw [hc]; rfl)
    | err e => simp [reset, hd, hc] at h
    | ok nm2 =>
      cases hmg : (migrate env).outcome with
      | panicked m => exact Or.inl (migrate_panic_flags env (by rw [hmg]; rfl))
      | err e => simp [reset, hd, hc, hmg] at h
      | ok c => simp [reset, hd, hc, hmg] at h

/-- C8 witness: instantiating the amended theorem on the
missing-seed-file environment localises the panic to the seed file. -/
theorem core_ops_result_or_enumerated_panic_witness :
    ({ envBase with seedFileOk := false } : Env).urlValid = false ∨
    ({ envBase with seedFileOk := false } : Env).targetConnectOk = false ∨
    ({ envBase with seedFileOk := false } : Env).seedFileOk = false :=
  (core_ops_result_or_enumerated_panic
    { envBase with seedFileOk := false } ⟨[]⟩).2.2.2.1 rfl

end GerustDb
